import Mathlib

/-!
Shallow embedding of the home-agent core components
(`src/home_agent/bus/mqtt_client.py`, `src/home_agent/db.py`,
`src/home_agent/integrations/sonos_playback.py`,
`src/home_agent/integrations/audio_host.py`) together with proofs of the
specification claims about them.
-/

namespace HomeAgent

/-! ### Transport client (`bus/mqtt_client.py`)

The client state mirrors the fields set in `MqttClient.__init__`; the paho
callbacks (`on_message`, `on_connect`, `on_disconnect`), `subscribe`,
`connect` and `next_message` become events acting on this state.  Commands
issued to the underlying paho client (`self._client.subscribe(...)`) are
recorded explicitly. -/

structure MqttMessage where
  topic : String
  payload : List Nat
deriving DecidableEq

structure MqttState where
  queueMax : Nat
  queue : List MqttMessage
  loopSet : Bool
  connected : Bool
  subs : List (String × Nat)
  receivedTotal : Nat
  droppedTotal : Nat
  connectTotal : Nat
  disconnectTotal : Nat
  lastConnectRc : Option Int
  lastDisconnectRc : Option Int
  maxQueueSeen : Nat
deriving DecidableEq

/-- Fields of `MqttClient.__init__`: empty bounded queue (capacity
`max(1, queue_maxsize)`), no loop yet, empty subscription registry,
all counters zero. -/
def initMqtt (queueMaxsize : Nat) : MqttState :=
  { queueMax := max 1 queueMaxsize
    queue := []
    loopSet := false
    connected := false
    subs := []
    receivedTotal := 0
    droppedTotal := 0
    connectTotal := 0
    disconnectTotal := 0
    lastConnectRc := none
    lastDisconnectRc := none
    maxQueueSeen := 0 }

/-- Python dict assignment `self._subs[topic] = qos`: update in place if the
key exists (insertion order kept), else append. -/
def subsInsert : List (String × Nat) → String → Nat → List (String × Nat)
  | [], t, q => [(t, q)]
  | (t0, q0) :: rest, t, q =>
      if t0 = t then (t0, q) :: rest else (t0, q0) :: subsInsert rest t q

/-- The `_enqueue` closure: bump `received_total`, then `put_nowait`; on
`QueueFull` (queue at capacity) drop the newest message and bump
`dropped_total`; otherwise track the max queue size seen. -/
def enqueueMsg (s : MqttState) (m : MqttMessage) : MqttState :=
  let s1 := { s with receivedTotal := s.receivedTotal + 1 }
  if s1.queue.length < s1.queueMax then
    let q := s1.queue ++ [m]
    { s1 with queue := q, maxQueueSeen := max s1.maxQueueSeen q.length }
  else
    { s1 with droppedTotal := s1.droppedTotal + 1 }

/-- Commands the wrapper issues to the underlying paho client. -/
inductive MqttCmd
  | subscribeCmd (topic : String) (qos : Nat)
deriving DecidableEq

/-- `next_message` / `self._queue.get()`: pop the head of the FIFO queue. -/
def nextMessageFn (s : MqttState) : Option (MqttMessage × MqttState) :=
  match s.queue with
  | [] => none
  | m :: rest => some (m, { s with queue := rest })

inductive MqttEvent
  | connectCall
  | subscribeCall (topic : String) (qos : Nat)
  | onMessage (m : MqttMessage)
  | onConnect (rc : Int)
  | onDisconnect (rc : Int)
  | nextMessage
deriving DecidableEq

/-- One client step.  `connectCall` is `connect()` up to the point where the
paho network thread is started (it records the running loop).
`onMessage` is the paho `on_message` callback followed by the `_enqueue` it
schedules on the loop; when no loop is recorded the callback returns without
touching anything.  `onConnect` re-issues one subscribe per registry entry
(after the `self._loop is None` guard).  `nextMessage` pops the queue head. -/
def mqttStep (s : MqttState) : MqttEvent → MqttState × List MqttCmd
  | .connectCall => ({ s with loopSet := true }, [])
  | .subscribeCall t q =>
      ({ s with subs := subsInsert s.subs t q }, [.subscribeCmd t q])
  | .onMessage m =>
      if s.loopSet then (enqueueMsg s m, []) else (s, [])
  | .onConnect rc =>
      let s1 := { s with connected := true, connectTotal := s.connectTotal + 1,
                         lastConnectRc := some rc }
      if s1.loopSet then (s1, s1.subs.map fun p => .subscribeCmd p.1 p.2)
      else (s1, [])
  | .onDisconnect rc =>
      ({ s with connected := false, disconnectTotal := s.disconnectTotal + 1,
                lastDisconnectRc := some rc }, [])
  | .nextMessage =>
      match nextMessageFn s with
      | none => (s, [])
      | some (_, s2) => (s2, [])

def mqttRun (s : MqttState) : List MqttEvent → MqttState
  | [] => s
  | e :: es => mqttRun (mqttStep s e).1 es

/-- The `stats()` snapshot dictionary. -/
structure MqttStats where
  connected : Nat
  queueSize : Nat
  queueMaxsize : Nat
  maxQueueSizeSeen : Nat
  receivedTotal : Nat
  droppedTotal : Nat
  connectTotal : Nat
  disconnectTotal : Nat
  lastConnectRc : Int
  lastDisconnectRc : Int
deriving DecidableEq

def mqttStats (s : MqttState) : MqttStats :=
  { connected := if s.connected then 1 else 0
    queueSize := s.queue.length
    queueMaxsize := s.queueMax
    maxQueueSizeSeen := s.maxQueueSeen
    receivedTotal := s.receivedTotal
    droppedTotal := s.droppedTotal
    connectTotal := s.connectTotal
    disconnectTotal := s.disconnectTotal
    lastConnectRc := match s.lastConnectRc with | some v => v | none => -1
    lastDisconnectRc := match s.lastDisconnectRc with | some v => v | none => -1 }

/-- Events raised by the paho network thread. -/
def isNetworkEvent : MqttEvent → Bool
  | .onMessage _ => true
  | .onConnect _ => true
  | .onDisconnect _ => true
  | _ => false

def isConnectCall : MqttEvent → Bool
  | .connectCall => true
  | _ => false

/-- Traces the process can actually produce: the paho network thread is only
started inside `connect()` (`loop_start`), after `self._loop` has been
recorded, so every network-thread callback is preceded by a `connectCall`. -/
def validFromB : Bool → List MqttEvent → Bool
  | _, [] => true
  | b, e :: es => (!isNetworkEvent e || b) && validFromB (b || isConnectCall e) es

/-- Repeatedly call `next_message` until the queue is exhausted. -/
def drainFuel : Nat → MqttState → List MqttMessage
  | 0, _ => []
  | fuel + 1, s =>
      match nextMessageFn s with
      | none => []
      | some (m, s2) => m :: drainFuel fuel s2

/-- State of the client after running a trace of events from a fresh
`MqttClient(queue_maxsize=M)`. -/
def mqttAfter (M : Nat) (es : List MqttEvent) : MqttState :=
  mqttRun (initMqtt M) es

/-- Concrete messages used by witnesses. -/
def wMsg (i : Nat) : MqttMessage := { topic := "home/events", payload := [i] }

/-! ### Storage connection manager (`db.py`)

`DbManager` holds one connection, a non-reentrant `threading.Lock` and a
`closing` event.  The outside world is an oracle: when (if ever) `close()`
sets the closing event, whether the i-th `psycopg.connect` attempt raises,
and how long it takes.  Monotonic time is a rational.  `ensure_connected`
takes the manager lock itself, so a caller that already holds the
non-reentrant lock blocks forever; this is modelled by the `blocked`
outcome. -/

inductive EnsureOut
  | success
  | closingErr
  | connErr (i : Nat)
  | blocked
deriving DecidableEq

structure DbEnv where
  closingAt : Option ℚ
  attemptFails : Nat → Bool
  attemptDur : Nat → ℚ

/-- Python `min` on rationals, as the kernel-computable conditional. -/
def ratMin (a b : ℚ) : ℚ := if a ≤ b then a else b

/-- Python `max` on rationals, as the kernel-computable conditional. -/
def ratMax (a b : ℚ) : ℚ := if a ≤ b then b else a

/-- `self._closing.is_set()` at monotonic time `t`. -/
def DbEnv.closing (env : DbEnv) (t : ℚ) : Bool :=
  match env.closingAt with
  | some tc => decide (tc ≤ t)
  | none => false

/-- `self._closing.wait(timeout=delay)` started at time `t`: returns early
when the closing event is set during the wait, else after the full delay. -/
def waitEnd (env : DbEnv) (t delay : ℚ) : ℚ :=
  match env.closingAt with
  | some tc => if tc ≤ t + delay then ratMax t tc else t + delay
  | none => t + delay

/-- Result of `ensure_connected`: outcome, the sequence of delays passed to
`closing.wait`, the number of `psycopg.connect` attempts, and the monotonic
time on return. -/
structure EnsureRes where
  out : EnsureOut
  waits : List ℚ
  attempts : Nat
  endTime : ℚ
deriving DecidableEq

/-- The reconnect loop of `ensure_connected` (`db.py` lines 99-125): check
closing, try `_connect_once`; on failure re-raise once the deadline has
passed, else wait `delay` (interruptibly) and double the delay up to 10s. -/
def ensureLoop (env : DbEnv) (deadline : ℚ) :
    Nat → Nat → ℚ → ℚ → List ℚ → Option EnsureRes
  | 0, _, _, _, _ => none
  | fuel + 1, i, t, delay, ws =>
      if env.closing t then some ⟨.closingErr, ws, i, t⟩
      else if env.attemptFails i = false then
        some ⟨.success, ws, i + 1, t + env.attemptDur i⟩
      else
        let t1 := t + env.attemptDur i
        if deadline ≤ t1 then some ⟨.connErr i, ws, i + 1, t1⟩
        else ensureLoop env deadline fuel (i + 1) (waitEnd env t1 delay)
          (ratMin (delay * 2) 10) (ws ++ [delay])

/-- `DbManager.ensure_connected`: raise `db_closing` if closing; acquire the
manager lock (a caller already holding the non-reentrant lock blocks); return
immediately if the held connection is open; else reconnect with capped
backoff against the deadline `t0 + max(1, reconnect_max_wait_seconds)`. -/
def DbEnv.ensureConnected (env : DbEnv) (lockHeld : Bool) (connOpen : Bool)
    (t0 maxWait : ℚ) (fuel : Nat) : Option EnsureRes :=
  if env.closing t0 then some ⟨.closingErr, [], 0, t0⟩
  else if lockHeld then some ⟨.blocked, [], 0, t0⟩
  else if connOpen then some ⟨.success, [], 0, t0⟩
  else ensureLoop env (t0 + ratMax 1 maxWait) fuel 0 t0 1 []

/-- The capped exponential backoff sequence: 1, 2, 4, 8, 10, 10, ... -/
def backoffDelays (n : Nat) : List ℚ :=
  (List.range n).map fun j => min ((2:ℚ) ^ j) 10

/-- Outcome of one invocation of the operation passed to `run`. -/
inductive OpRes (α : Type)
  | ok (v : α)
  | connFail
  | dataFail
deriving DecidableEq

inductive RunOut (α : Type)
  | result (v : α)
  | closingRaise
  | connRaise
  | dataRaise
  | deadlock
  | outOfFuel
deriving DecidableEq

/-- `DbManager.run` (`db.py` lines 127-154): check closing, acquire
`self._lock`, then call `self.ensure_connected()` **while still holding the
lock**, run the operation, and on a connection-level error drop the handle,
call `self.ensure_connected()` again (lock still held) and retry once.
`op n` is the outcome of the n-th invocation of the operation. -/
def DbEnv.run {α : Type} (env : DbEnv) (op : Nat → OpRes α) (retries : Nat)
    (connOpen : Bool) (t0 maxWait : ℚ) (fuel : Nat) : RunOut α :=
  if env.closing t0 then .closingRaise
  else
    match env.ensureConnected true connOpen t0 maxWait fuel with
    | none => .outOfFuel
    | some r =>
      match r.out with
      | .blocked => .deadlock
      | .closingErr => .closingRaise
      | .connErr _ => .connRaise
      | .success =>
        match op 0 with
        | .ok v => .result v
        | .dataFail => .dataRaise
        | .connFail =>
          if retries = 0 then .connRaise
          else if env.closing r.endTime then .connRaise
          else
            match env.ensureConnected true false r.endTime maxWait fuel with
            | none => .outOfFuel
            | some r2 =>
              match r2.out with
              | .blocked => .deadlock
              | .closingErr => .closingRaise
              | .connErr _ => .connRaise
              | .success =>
                match op 1 with
                | .ok v => .result v
                | .connFail => .connRaise
                | .dataFail => .dataRaise

/-- Environment with no close request and every connect attempt succeeding
instantly. -/
def dbEnvHealthy : DbEnv :=
  { closingAt := none, attemptFails := fun _ => false, attemptDur := fun _ => 0 }

/-- Environment whose first two connect attempts fail, instantly. -/
def dbEnvFail2 : DbEnv :=
  { closingAt := none, attemptFails := fun i => decide (i < 2), attemptDur := fun _ => 0 }

/-- Environment where `close()` was requested at time 0. -/
def dbEnvClosed : DbEnv :=
  { closingAt := some 0, attemptFails := fun _ => false, attemptDur := fun _ => 0 }

/-- Environment where every connect attempt fails instantly. -/
def dbEnvAllFail : DbEnv :=
  { closingAt := none, attemptFails := fun _ => true, attemptDur := fun _ => 0 }

/-- Operation that fails with a connection-level error on its first
invocation and succeeds on the retry. -/
def opFailOnce : Nat → OpRes Nat :=
  fun n => if n = 0 then OpRes.connFail else OpRes.ok 42

/-! ### Sonos playback orchestrator (`integrations/sonos_playback.py`)

Devices are identified by opaque ids (for `SoCo(ip)` handles, the ip).  The
device network is an oracle: for each configured ip, the result of probing
`d.group.coordinator` (`none` = the probe raised, so the code falls back to
the device itself), and each device's `ip_address` attribute (`none` =
attribute missing, and Python treats the empty string as falsy in
`getattr(...) or ip`).  Blocking device calls are recorded as commands; a
per-target fault oracle says which calls raise. -/

structure SonosEnv where
  coordinator : String → Option String
  ipAttr : String → Option String

/-- `coord = d.group.coordinator` with `except: coord = d`. -/
def coordOf (env : SonosEnv) (ip : String) : String :=
  match env.coordinator ip with
  | some c => c
  | none => ip

/-- `key = getattr(coord, "ip_address", None) or ip`. -/
def coordKey (env : SonosEnv) (ip coord : String) : String :=
  match env.ipAttr coord with
  | some s => if s = "" then ip else s
  | none => ip

/-- Coordinator key a given configured address resolves to. -/
def addrKey (env : SonosEnv) (ip : String) : String :=
  coordKey env ip (coordOf env ip)

structure SonosCfg where
  speakerIps : List String
  defaultVolume : Int
  volumeMap : List (String × Int)

/-- Python `min` on ints, as the kernel-computable conditional. -/
def intMin (a b : Int) : Int := if a ≤ b then a else b

/-- Python `max` on ints, as the kernel-computable conditional. -/
def intMax (a b : Int) : Int := if a ≤ b then b else a

/-- `max(0, min(100, int(vol)))`. -/
def clampVol (v : Int) : Int := intMax 0 (intMin 100 v)

/-- Python `dict.get`: first (unique) matching key. -/
def lookupVol : List (String × Int) → String → Option Int
  | [], _ => none
  | (k, v) :: rest, key => if k = key then some v else lookupVol rest key

/-- Volume resolution for one address (`sonos_playback.py` lines 145-150):
per-ip override, else per-coordinator-key override, else the service default,
then clamped into 0..100. -/
def resolveVol (cfg : SonosCfg) (ip key : String) : Int :=
  clampVol (match lookupVol cfg.volumeMap ip with
    | some v => v
    | none =>
        match lookupVol cfg.volumeMap key with
        | some v => v
        | none => cfg.defaultVolume)

structure ResolvedTarget where
  device : String
  volume : Int
  key : String
  memberVolumes : List (String × Int)
deriving DecidableEq

/-- Python dict assignment `t.member_volumes[ip] = vol`. -/
def setVol : List (String × Int) → String → Int → List (String × Int)
  | [], ip, v => [(ip, v)]
  | (k, v0) :: rest, ip, v =>
      if k = ip then (k, v) :: rest else (k, v0) :: setVol rest ip v

/-- The `for t in out: if t.key == key: t.member_volumes[ip] = vol; break`
loop: record the member's volume on the first queued target with this
coordinator key. -/
def addMemberVol : List ResolvedTarget → String → String → Int → List ResolvedTarget
  | [], _, _, _ => []
  | t :: rest, key, ip, v =>
      if t.key = key then
        { t with memberVolumes := setVol t.memberVolumes ip v } :: rest
      else t :: addMemberVol rest key ip v

/-- The body of `_resolve_targets`: fold over configured addresses keeping
the `seen` key set and the ordered output list; in the loop `key` is
`addrKey env ip` and `vol` is `resolveVol cfg ip key`. -/
def resolveLoop (cfg : SonosCfg) (env : SonosEnv) :
    List String → List String → List ResolvedTarget → List ResolvedTarget
  | [], _, out => out
  | ip :: rest, seen, out =>
      if seen.contains (addrKey env ip) then
        resolveLoop cfg env rest seen
          (addMemberVol out (addrKey env ip) ip (resolveVol cfg ip (addrKey env ip)))
      else
        resolveLoop cfg env rest (addrKey env ip :: seen)
          (out ++ [⟨coordOf env ip, resolveVol cfg ip (addrKey env ip), addrKey env ip,
            [(ip, resolveVol cfg ip (addrKey env ip))]⟩])

def resolveTargets (cfg : SonosCfg) (env : SonosEnv) : List ResolvedTarget :=
  resolveLoop cfg env cfg.speakerIps [] []

/-- Volume sanity of one resolved target: its own volume and every recorded
member volume lie in 0..100. -/
def volOk (t : ResolvedTarget) : Prop :=
  (0 ≤ t.volume ∧ t.volume ≤ 100) ∧ ∀ p ∈ t.memberVolumes, 0 ≤ p.2 ∧ p.2 ≤ 100

/-- Some queued target carries this address's coordinator key and records
this address's resolved volume for it. -/
def targetHasMember (cfg : SonosCfg) (env : SonosEnv) (ip : String)
    (out : List ResolvedTarget) : Prop :=
  ∃ t ∈ out, t.key = addrKey env ip ∧
    lookupVol t.memberVolumes ip = some (resolveVol cfg ip (addrKey env ip))

/-- Blocking calls issued to devices by `_play_url_blocking`. -/
inductive SCmd
  | snapshotCmd (dev : String)
  | setVolumeCmd (dev : String) (v : Int)
  | playUriCmd (dev : String) (url : String)
  | restoreCmd (dev : String)
  | stopCmd (dev : String)
  | resumeCmd (dev : String)
deriving DecidableEq

/-- Which calls of one target's routine raise, and the transport-state
samples the routine observes. -/
structure DevFaults where
  snapshotCtorFails : Bool
  snapshotFails : Bool
  playFails : Bool
  restoreFails : Bool
  wasPlaying : Bool
  playingAfterRestore : Bool
deriving DecidableEq

def noFaults : DevFaults :=
  { snapshotCtorFails := false, snapshotFails := false, playFails := false,
    restoreFails := false, wasPlaying := false, playingAfterRestore := false }

/-- Python truthiness of the `member_volumes` argument (`if member_volumes:`). -/
def truthyMember : Option (List (String × Int)) → Bool
  | some (_ :: _) => true
  | _ => false

/-- The volume section of `_play_url_blocking` (lines 85-98): per-member
clamped sets when a member map was passed, else one set on the coordinator
with the call-level/target volume or the service default (unclamped there). -/
def volumeCmds (dev : String) (volume : Option Int) (defaultVolume : Int)
    (memberVols : Option (List (String × Int))) : List SCmd :=
  if truthyMember memberVols then
    (memberVols.getD []).map fun p => SCmd.setVolumeCmd p.1 (clampVol p.2)
  else
    [SCmd.setVolumeCmd dev (match volume with | some v => v | none => defaultVolume)]

/-- The `finally:` block (lines 111-126): attempt restore; on restore failure
fall back to an explicit stop; otherwise, if the device was playing before
and is not playing after restore, issue a resume. -/
def finallyCmds (f : DevFaults) (dev : String) : List SCmd :=
  if f.restoreFails then [SCmd.restoreCmd dev, SCmd.stopCmd dev]
  else if f.wasPlaying && !f.playingAfterRestore then
    [SCmd.restoreCmd dev, SCmd.resumeCmd dev]
  else [SCmd.restoreCmd dev]

/-- The `try:` body: snapshot (aborting the body on failure), volume section,
play; the Bool records whether the body raised. -/
def bodyCmds (f : DevFaults) (dev url : String) (volume : Option Int)
    (defaultVolume : Int) (memberVols : Option (List (String × Int))) :
    List SCmd × Bool :=
  if f.snapshotFails then ([SCmd.snapshotCmd dev], true)
  else
    (SCmd.snapshotCmd dev :: volumeCmds dev volume defaultVolume memberVols
      ++ [SCmd.playUriCmd dev url], f.playFails)

/-- One target's `_play_url_blocking` routine: `Snapshot(spk)` construction
(outside the try, so its failure skips the finally), then body + finally;
the Bool records whether the routine raised. -/
def playBlocking (f : DevFaults) (dev url : String) (volume : Option Int)
    (defaultVolume : Int) (memberVols : Option (List (String × Int))) :
    List SCmd × Bool :=
  if f.snapshotCtorFails then ([], true)
  else
    let body := bodyCmds f dev url volume defaultVolume memberVols
    (body.1 ++ finallyCmds f dev, body.2)

/-- The volume argument `run_one` passes for one target:
`volume if volume is not None else item.volume`. -/
def callVolume (volume : Option Int) (t : ResolvedTarget) : Option Int :=
  some (match volume with | some v => v | none => t.volume)

/-- The member map `run_one` passes for one target:
`item.member_volumes if volume is None else None`. -/
def callMemberVols (volume : Option Int) (t : ResolvedTarget) :
    Option (List (String × Int)) :=
  match volume with | some _ => none | none => some t.memberVolumes

/-- `play_url`: resolve targets, and run one routine per target (the
`asyncio.gather` over `run_one` coroutines runs every routine to completion
even when some raise).  Per target, the call-level volume overrides the
target volume, and the member map is forwarded only when no call-level
volume was given. -/
def playUrlRun (cfg : SonosCfg) (env : SonosEnv) (faults : String → DevFaults)
    (url : String) (volume : Option Int) : List (List SCmd × Bool) :=
  (resolveTargets cfg env).map fun t =>
    playBlocking (faults t.key) t.device url (callVolume volume t)
      cfg.defaultVolume (callMemberVols volume t)

/-- Number of physical play commands in a command list. -/
def playCount (cs : List SCmd) : Nat :=
  (cs.filter fun c => match c with | SCmd.playUriCmd _ _ => true | _ => false).length

def totalPlays (rs : List (List SCmd × Bool)) : Nat :=
  (rs.map fun r => playCount r.1).sum

/-- Three configured addresses: two grouped under coordinator 10.0.0.9, one
standalone, with per-speaker overrides for the grouped pair (the second
override exceeding 100). -/
def sonosCfg3 : SonosCfg :=
  { speakerIps := ["10.0.0.1", "10.0.0.2", "10.0.0.3"]
    defaultVolume := 25
    volumeMap := [("10.0.0.1", 30), ("10.0.0.2", 140)] }

def sonosEnv3 : SonosEnv :=
  { coordinator := fun ip =>
      if ip = "10.0.0.1" || ip = "10.0.0.2" then some "10.0.0.9" else none
    ipAttr := fun c => some c }

def faultsNone : String → DevFaults := fun _ => noFaults

/-- Fault assignment making the grouped coordinator's restore fail. -/
def faultsRestoreFail : String → DevFaults := fun k =>
  if k = "10.0.0.9" then { noFaults with restoreFails := true } else noFaults

/-! ### Ephemeral content host (`integrations/audio_host.py`)

State: the files present in the private temp directory (with their mtimes)
and the `_expires_at` bookkeeping map; time is a rational.  The HTTP request
handler (`SimpleHTTPRequestHandler` over the directory) serves whatever file
exists on disk — there is no expiry check in the request path — so a file is
servable exactly while it is on disk. -/

structure HostState where
  disk : List (String × ℚ)
  expiresAt : List (String × ℚ)
  ttl : ℚ
deriving DecidableEq

def initHost (ttl : ℚ) : HostState := { disk := [], expiresAt := [], ttl := ttl }

/-- `host_bytes` at time `now` with the generated unique name: write the
file and record `_expires_at[unique] = now + max(5.0, ttl_seconds)`. -/
def hostFile (s : HostState) (unique : String) (now : ℚ) : HostState :=
  { s with disk := s.disk ++ [(unique, now)],
           expiresAt := s.expiresAt ++ [(unique, now + ratMax 5 s.ttl)] }

/-- One iteration of `_cleanup_loop` waking at time `now`: pop the map
entries whose recorded expiry has passed; when none expired, skip the disk
work entirely (`if not root or not expired: continue`); otherwise unlink the
expired names and prune orphan files whose mtime is older than the TTL
window. -/
def cleanupTick (s : HostState) (now : ℚ) : HostState :=
  if ((s.expiresAt.filter fun p => decide (p.2 ≤ now)).map Prod.fst).isEmpty then
    { s with expiresAt := s.expiresAt.filter fun p => !decide (p.2 ≤ now) }
  else
    { s with
      expiresAt := s.expiresAt.filter fun p => !decide (p.2 ≤ now),
      disk := (s.disk.filter fun d =>
          !((s.expiresAt.filter fun p => decide (p.2 ≤ now)).map Prod.fst).contains d.1).filter
        fun d => !decide (d.2 ≤ now - ratMax 5 s.ttl) }

def sweepAll (s : HostState) : List ℚ → HostState
  | [] => s
  | t :: ts => sweepAll (cleanupTick s t) ts

/-- Whether a GET for this name succeeds: the file exists in the directory. -/
def servable (s : HostState) (name : String) : Bool :=
  s.disk.any fun d => decide (d.1 = name)

/-- Python `str.strip()`'s ASCII whitespace. -/
def pyIsSpace (c : Char) : Bool :=
  c == ' ' || c == '\t' || c == '\n' || c == '\r' || c == '\x0b' || c == '\x0c'

/-- `str.strip()`: drop whitespace from both ends. -/
def stripChars (l : List Char) : List Char :=
  (((l.dropWhile pyIsSpace).reverse).dropWhile pyIsSpace).reverse

/-- `os.path.basename` on posix: the text after the last '/'. -/
def basenameChars (l : List Char) : List Char :=
  l.foldl (fun acc c => if c = '/' then [] else acc ++ [c]) []

/-- `s.replace(" ", "_")`. -/
def underscoreSpaces (l : List Char) : List Char :=
  l.map fun c => if c = ' ' then '_' else c

/-- `_safe_filename` (`audio_host.py` lines 182-192):
`s = str(name or "audio").strip(); s = os.path.basename(s);
if not s: return "audio"; return s.replace(" ", "_")`. -/
def safeFilename (name : String) : String :=
  let s0 := if name = "" then "audio".data else name.data
  let s2 := basenameChars (stripChars s0)
  if s2 = [] then "audio" else String.mk (underscoreSpaces s2)

theorem drainFuel_queue (s : MqttState) : drainFuel s.queue.length s = s.queue := by
  rcases s with ⟨qm, q, l, c, subs, r, d, ct, dt, lc, ld, mx⟩
  induction q with
  | nil => rfl
  | cons m rest ih =>
      simp only [drainFuel, nextMessageFn, List.length_cons]
      exact congrArg (m :: ·) ih

theorem mqttStep_loopSet (s : MqttState) (e : MqttEvent) :
    (mqttStep s e).1.loopSet = (s.loopSet || isConnectCall e) := by
  cases e with
  | connectCall => simp [mqttStep, isConnectCall]
  | subscribeCall t q => simp [mqttStep, isConnectCall]
  | onMessage m =>
      by_cases h : s.loopSet <;> simp [mqttStep, isConnectCall, h, enqueueMsg]
      · split <;> rfl
  | onConnect rc =>
      by_cases h : s.loopSet <;> simp [mqttStep, isConnectCall, h]
  | onDisconnect rc => simp [mqttStep, isConnectCall]
  | nextMessage =>
      simp only [mqttStep, isConnectCall, Bool.or_false]
      cases h : nextMessageFn s with
      | none => rfl
      | some p =>
          rcases s with ⟨qm, q, l, c, subs, r, d, ct, dt, lc, ld, mx⟩
          cases q with
          | nil => simp [nextMessageFn] at h
          | cons m rest =>
              simp [nextMessageFn] at h
              simp [← h]

theorem mqttRun_loopSet (es : List MqttEvent) (s : MqttState) :
    (mqttRun s es).loopSet = (s.loopSet || es.any isConnectCall) := by
  induction es generalizing s with
  | nil => simp [mqttRun]
  | cons e rest ih =>
      simp only [mqttRun, List.any_cons]
      rw [ih, mqttStep_loopSet, Bool.or_assoc]

/-- Validity of a concatenated trace: if the last event is a network-thread
callback, some `connectCall` occurs earlier in the trace. -/
theorem validFromB_append_network (es : List MqttEvent) (e : MqttEvent) (b : Bool)
    (hv : validFromB b (es ++ [e]) = true) (hn : isNetworkEvent e = true) :
    (b || es.any isConnectCall) = true := by
  induction es generalizing b with
  | nil =>
      simp only [List.nil_append, validFromB, Bool.and_eq_true] at hv
      simp only [List.any_nil, Bool.or_false]
      rcases hv with ⟨h1, _⟩
      cases b with
      | true => rfl
      | false => simp [hn] at h1
  | cons e0 rest ih =>
      simp only [List.cons_append, validFromB, Bool.and_eq_true] at hv
      have h2 := ih (b || isConnectCall e0) hv.2
      simp only [List.any_cons]
      cases hb : b with
      | true => rfl
      | false =>
          subst hb
          simpa [Bool.or_assoc] using h2

/-- Folding a burst of `on_message` deliveries over a state whose loop is
running: the queue extends FIFO up to capacity, the overflow is counted in
`dropped_total`, and every delivery is counted in `received_total`. -/
theorem mqttRun_onMessages (msgs : List MqttMessage) (s : MqttState)
    (hl : s.loopSet = true) (hq : s.queue.length ≤ s.queueMax) :
    (mqttRun s (msgs.map MqttEvent.onMessage)).queue = (s.queue ++ msgs).take s.queueMax ∧
    (mqttRun s (msgs.map MqttEvent.onMessage)).droppedTotal
      = s.droppedTotal + (s.queue.length + msgs.length - s.queueMax) ∧
    (mqttRun s (msgs.map MqttEvent.onMessage)).receivedTotal
      = s.receivedTotal + msgs.length ∧
    (mqttRun s (msgs.map MqttEvent.onMessage)).queueMax = s.queueMax := by
  induction msgs generalizing s with
  | nil =>
      refine ⟨?_, ?_, by simp [mqttRun], by simp [mqttRun]⟩
      · simp only [List.map_nil, mqttRun, List.append_nil]
        exact (List.take_of_length_le hq).symm
      · simp only [List.map_nil, mqttRun, List.length_nil]
        omega
  | cons m rest ih =>
      simp only [List.map_cons, mqttRun, mqttStep, hl, if_true]
      by_cases hlen : s.queue.length < s.queueMax
      · have hstep : enqueueMsg s m =
            { s with receivedTotal := s.receivedTotal + 1,
                     queue := s.queue ++ [m],
                     maxQueueSeen := max s.maxQueueSeen (s.queue ++ [m]).length } := by
          simp [enqueueMsg, hlen]
        rw [hstep]
        have h2 := ih { s with receivedTotal := s.receivedTotal + 1,
                               queue := s.queue ++ [m],
                               maxQueueSeen := max s.maxQueueSeen (s.queue ++ [m]).length }
          (by simpa using hl)
          (by simp only [List.length_append, List.length_cons, List.length_nil]; omega)
        refine ⟨?_, ?_, ?_, h2.2.2.2⟩
        · rw [h2.1, List.append_assoc]
          rfl
        · rw [h2.2.1]
          simp only [List.length_append, List.length_cons, List.length_nil]
          omega
        · rw [h2.2.2.1]
          simp only [List.length_cons]
          omega
      · have heq : s.queue.length = s.queueMax := le_antisymm hq (not_lt.mp hlen)
        have hstep : enqueueMsg s m =
            { s with receivedTotal := s.receivedTotal + 1,
                     droppedTotal := s.droppedTotal + 1 } := by
          simp [enqueueMsg, hlen]
        rw [hstep]
        have h2 := ih { s with receivedTotal := s.receivedTotal + 1,
                               droppedTotal := s.droppedTotal + 1 }
          (by simpa using hl) (by simpa using hq)
        have htake : ∀ l : List MqttMessage,
            List.take s.queueMax (s.queue ++ l) = s.queue := by
          intro l
          rw [← heq]
          exact List.take_left s.queue l
        refine ⟨?_, ?_, ?_, h2.2.2.2⟩
        · rw [h2.1, htake rest, htake (m :: rest)]
        · rw [h2.2.1]
          simp only [List.length_cons]
          omega
        · rw [h2.2.2.1]
          simp only [List.length_cons]
          omega

/-- C2: for a Transport Client with inbound queue capacity N, delivering
N+k messages through the on-message path with no consumer retains exactly
the first N messages in arrival order, drops the k newest, reports
`dropped_total = k` and `received_total = N + k` in `stats()`, and a
consumer subsequently draining via `next_message` receives the N retained
messages in their original arrival order. -/
theorem mqtt_backpressure_drop_newest (N k : Nat) (hN : 0 < N)
    (msgs : List MqttMessage) (hlen : msgs.length = N + k) :
    (mqttAfter N (MqttEvent.connectCall :: msgs.map MqttEvent.onMessage)).queue
        = msgs.take N ∧
    (mqttStats (mqttAfter N (MqttEvent.connectCall :: msgs.map MqttEvent.onMessage))).droppedTotal
        = k ∧
    (mqttStats (mqttAfter N (MqttEvent.connectCall :: msgs.map MqttEvent.onMessage))).receivedTotal
        = N + k ∧
    drainFuel (mqttAfter N (MqttEvent.connectCall :: msgs.map MqttEvent.onMessage)).queue.length
        (mqttAfter N (MqttEvent.connectCall :: msgs.map MqttEvent.onMessage))
        = msgs.take N := by
  have hmax : max 1 N = N := Nat.max_eq_right hN
  have hs0 : (mqttStep (initMqtt N) MqttEvent.connectCall).1
      = { initMqtt N with loopSet := true } := rfl
  have h := mqttRun_onMessages msgs { initMqtt N with loopSet := true } rfl
    (by simp [initMqtt])
  simp only [initMqtt, hmax, List.nil_append, List.length_nil, Nat.zero_add] at h
  have hq : (mqttAfter N (MqttEvent.connectCall :: msgs.map MqttEvent.onMessage)).queue
      = msgs.take N := by
    have := h.1
    simpa [mqttAfter, mqttRun, hs0, initMqtt, hmax] using this
  refine ⟨hq, ?_, ?_, ?_⟩
  · have := h.2.1
    simp only [mqttStats]
    simp only [mqttAfter, mqttRun, hs0]
    simp only [initMqtt, hmax] at this ⊢
    rw [this, hlen]
    omega
  · have := h.2.2.1
    simp only [mqttStats]
    simp only [mqttAfter, mqttRun, hs0]
    simp only [initMqtt, hmax] at this ⊢
    rw [this, hlen]
  · rw [drainFuel_queue, hq]

/-- Witness for C2 at N = 2, k = 1: three messages delivered, first two
retained in order, one drop counted. -/
theorem mqtt_backpressure_drop_newest_witness :
    (mqttAfter 2 (MqttEvent.connectCall ::
        ([wMsg 0, wMsg 1, wMsg 2].map MqttEvent.onMessage))).queue = [wMsg 0, wMsg 1] ∧
    (mqttStats (mqttAfter 2 (MqttEvent.connectCall ::
        ([wMsg 0, wMsg 1, wMsg 2].map MqttEvent.onMessage)))).droppedTotal = 1 := by
  have h := mqtt_backpressure_drop_newest 2 1 (by decide) [wMsg 0, wMsg 1, wMsg 2] (by decide)
  exact ⟨by rw [h.1]; rfl, h.2.1⟩

/-- C3: in every reachable state (trace in which network callbacks fire only
after `connect()` recorded the loop), a message handed to `on_message` is
either enqueued for the reader with the dropped counter unchanged, or
discarded with `stats()['dropped_total']` incremented by one; there is no
third path. -/
theorem mqtt_no_silent_drop (M : Nat) (es : List MqttEvent) (m : MqttMessage)
    (hv : validFromB false (es ++ [MqttEvent.onMessage m]) = true) :
    ((mqttStep (mqttAfter M es) (MqttEvent.onMessage m)).1.queue
        = (mqttAfter M es).queue ++ [m] ∧
      (mqttStats (mqttStep (mqttAfter M es) (MqttEvent.onMessage m)).1).droppedTotal
        = (mqttStats (mqttAfter M es)).droppedTotal) ∨
    ((mqttStep (mqttAfter M es) (MqttEvent.onMessage m)).1.queue
        = (mqttAfter M es).queue ∧
      (mqttStats (mqttStep (mqttAfter M es) (MqttEvent.onMessage m)).1).droppedTotal
        = (mqttStats (mqttAfter M es)).droppedTotal + 1) := by
  have hany : es.any isConnectCall = true := by
    have := validFromB_append_network es (MqttEvent.onMessage m) false hv rfl
    simpa using this
  have hloop : (mqttAfter M es).loopSet = true := by
    rw [mqttAfter, mqttRun_loopSet, hany]
    simp [initMqtt]
  set s := mqttAfter M es with hs
  have hstep : (mqttStep s (MqttEvent.onMessage m)).1 = enqueueMsg s m := by
    simp [mqttStep, hloop]
  rw [hstep]
  by_cases hlen : s.queue.length < s.queueMax
  · left
    constructor
    · simp [enqueueMsg, hlen]
    · simp [enqueueMsg, hlen, mqttStats]
  · right
    constructor
    · simp [enqueueMsg, hlen]
    · simp [enqueueMsg, hlen, mqttStats]

/-- Witness for C3 on the trace connect; subscribe; one delivered message. -/
theorem mqtt_no_silent_drop_witness :
    (((mqttStep (mqttAfter 3 [MqttEvent.connectCall]) (MqttEvent.onMessage (wMsg 7))).1.queue
        = (mqttAfter 3 [MqttEvent.connectCall]).queue ++ [wMsg 7] ∧
      (mqttStats (mqttStep (mqttAfter 3 [MqttEvent.connectCall])
          (MqttEvent.onMessage (wMsg 7))).1).droppedTotal
        = (mqttStats (mqttAfter 3 [MqttEvent.connectCall])).droppedTotal) ∨
    ((mqttStep (mqttAfter 3 [MqttEvent.connectCall]) (MqttEvent.onMessage (wMsg 7))).1.queue
        = (mqttAfter 3 [MqttEvent.connectCall]).queue ∧
      (mqttStats (mqttStep (mqttAfter 3 [MqttEvent.connectCall])
          (MqttEvent.onMessage (wMsg 7))).1).droppedTotal
        = (mqttStats (mqttAfter 3 [MqttEvent.connectCall])).droppedTotal + 1)) :=
  mqtt_no_silent_drop 3 [MqttEvent.connectCall] (wMsg 7) (by decide)

/-- C6: on every reachable invocation of the `on_connect` callback the client
issues exactly one subscribe command per entry of its subscription registry,
with the recorded QoS; in particular every registered topic is re-issued. -/
theorem mqtt_resubscribe_on_connect (M : Nat) (es : List MqttEvent) (rc : Int)
    (hv : validFromB false (es ++ [MqttEvent.onConnect rc]) = true) :
    (mqttStep (mqttAfter M es) (MqttEvent.onConnect rc)).2
        = (mqttAfter M es).subs.map (fun p => MqttCmd.subscribeCmd p.1 p.2) ∧
    ∀ t q, (t, q) ∈ (mqttAfter M es).subs →
      MqttCmd.subscribeCmd t q ∈ (mqttStep (mqttAfter M es) (MqttEvent.onConnect rc)).2 := by
  have hany : es.any isConnectCall = true := by
    have := validFromB_append_network es (MqttEvent.onConnect rc) false hv rfl
    simpa using this
  have hloop : (mqttAfter M es).loopSet = true := by
    rw [mqttAfter, mqttRun_loopSet, hany]
    simp [initMqtt]
  have hcmds : (mqttStep (mqttAfter M es) (MqttEvent.onConnect rc)).2
      = (mqttAfter M es).subs.map (fun p => MqttCmd.subscribeCmd p.1 p.2) := by
    simp [mqttStep, hloop]
  refine ⟨hcmds, fun t q hmem => ?_⟩
  rw [hcmds]
  exact List.mem_map_of_mem _ hmem

/-- Witness for C6: subscribe to two topics, disconnect, reconnect; both
subscriptions are re-issued with their recorded QoS. -/
theorem mqtt_resubscribe_on_connect_witness :
    (mqttStep (mqttAfter 5 [MqttEvent.connectCall, MqttEvent.subscribeCall "home/a" 0,
        MqttEvent.subscribeCall "home/b" 1, MqttEvent.onDisconnect 1])
        (MqttEvent.onConnect 0)).2
      = [MqttCmd.subscribeCmd "home/a" 0, MqttCmd.subscribeCmd "home/b" 1] := by
  have h := mqtt_resubscribe_on_connect 5
    [MqttEvent.connectCall, MqttEvent.subscribeCall "home/a" 0,
     MqttEvent.subscribeCall "home/b" 1, MqttEvent.onDisconnect 1] 0 (by decide)
  rw [h.1]
  rfl

theorem ratMin_eq_min (a b : ℚ) : ratMin a b = min a b := by
  by_cases h : a ≤ b
  · simp [ratMin, h, min_eq_left h]
  · simp [ratMin, h, min_eq_right (le_of_not_le h)]

theorem ratMax_eq_max (a b : ℚ) : ratMax a b = max a b := by
  by_cases h : a ≤ b
  · simp [ratMax, h, max_eq_right h]
  · simp [ratMax, h, max_eq_left (le_of_not_le h)]

theorem min_doubling (n : Nat) :
    min (min ((2:ℚ) ^ n) 10 * 2) 10 = min ((2:ℚ) ^ (n + 1)) 10 := by
  rcases le_or_lt ((2:ℚ) ^ n) 10 with h | h
  · rw [min_eq_left h, pow_succ]
  · have h1 : (10:ℚ) < 2 ^ (n + 1) := by
      rw [pow_succ]
      linarith
    rw [min_eq_right h.le, min_eq_right (by norm_num : (10:ℚ) ≤ 10 * 2),
      min_eq_right h1.le]

theorem backoffDelays_succ (n : Nat) :
    backoffDelays (n + 1) = backoffDelays n ++ [min ((2:ℚ) ^ n) 10] := by
  simp [backoffDelays, List.range_succ]

/-- Invariants of the reconnect loop: the waits performed so far follow the
capped doubling sequence; a connection error is only re-raised for a failed
attempt at or past the deadline; `db_closing` is only raised while the
closing event is set. -/
theorem ensureLoop_spec (env : DbEnv) (deadline : ℚ) (fuel : Nat) :
    ∀ (i : Nat) (t delay : ℚ) (ws : List ℚ),
      delay = min ((2:ℚ) ^ ws.length) 10 →
      ws = backoffDelays ws.length →
      ∀ res, ensureLoop env deadline fuel i t delay ws = some res →
        res.waits = backoffDelays res.waits.length ∧
        (∀ k2, res.out = EnsureOut.connErr k2 →
          env.attemptFails k2 = true ∧ deadline ≤ res.endTime) ∧
        (res.out = EnsureOut.closingErr → env.closing res.endTime = true) := by
  induction fuel with
  | zero => intro i t delay ws _ _ res hres; simp [ensureLoop] at hres
  | succ fuel ih =>
      intro i t delay ws hdelay hws res hres
      simp only [ensureLoop] at hres
      by_cases hcl : env.closing t = true
      · rw [if_pos hcl] at hres
        cases hres
        refine ⟨hws, ?_, fun _ => hcl⟩
        intro k2 hk
        exact absurd hk (by simp)
      · rw [if_neg hcl] at hres
        by_cases hfail : env.attemptFails i = false
        · rw [if_pos hfail] at hres
          cases hres
          refine ⟨hws, ?_, ?_⟩
          · intro k2 hk
            exact absurd hk (by simp)
          · intro hk
            exact absurd hk (by simp)
        · rw [if_neg hfail] at hres
          by_cases hdl : deadline ≤ t + env.attemptDur i
          · rw [if_pos hdl] at hres
            cases hres
            refine ⟨hws, ?_, ?_⟩
            · intro k2 hk
              have : k2 = i := by
                cases hk
                rfl
              subst this
              exact ⟨Bool.eq_true_of_not_eq_false hfail, hdl⟩
            · intro hk
              exact absurd hk (by simp)
          · rw [if_neg hdl] at hres
            have hlen : (ws ++ [delay]).length = ws.length + 1 := by simp
            refine ih (i + 1) (waitEnd env (t + env.attemptDur i) delay)
              (ratMin (delay * 2) 10) (ws ++ [delay]) ?_ ?_ res hres
            · rw [hlen, ratMin_eq_min, hdelay, min_doubling]
            · rw [hlen, backoffDelays_succ, ← hws, hdelay]

/-- C7: `ensure_connected` called without the manager lock held (a) returns
immediately, with no connect attempt and no wait, when the held connection is
open and no close was requested; (b) raises `db_closing` when `close()` has
been requested at entry, and whenever it raises `db_closing` the closing
event is set at that moment; (c) the delays it sleeps between failed attempts
start at 1s and double up to a cap of 10s; (d) it re-raises the connection
error of a failed attempt exactly when the deadline
`t0 + max(1, reconnect_max_wait_seconds)` has elapsed. -/
theorem db_ensure_connected_behavior (env : DbEnv) (connOpen : Bool)
    (t0 maxWait : ℚ) (fuel : Nat) :
    (env.closing t0 = false → connOpen = true →
      env.ensureConnected false connOpen t0 maxWait fuel
        = some ⟨EnsureOut.success, [], 0, t0⟩) ∧
    (env.closing t0 = true →
      env.ensureConnected false connOpen t0 maxWait fuel
        = some ⟨EnsureOut.closingErr, [], 0, t0⟩) ∧
    (∀ res, env.ensureConnected false connOpen t0 maxWait fuel = some res →
      res.waits = backoffDelays res.waits.length ∧
      (∀ i, res.out = EnsureOut.connErr i →
        env.attemptFails i = true ∧ t0 + ratMax 1 maxWait ≤ res.endTime) ∧
      (res.out = EnsureOut.closingErr → env.closing res.endTime = true)) := by
  refine ⟨?_, ?_, ?_⟩
  · intro hcl hopen
    simp [DbEnv.ensureConnected, hcl, hopen]
  · intro hcl
    simp [DbEnv.ensureConnected, hcl]
  · intro res hres
    simp only [DbEnv.ensureConnected] at hres
    by_cases hcl : env.closing t0 = true
    · rw [if_pos hcl] at hres
      cases hres
      refine ⟨rfl, ?_, fun _ => hcl⟩
      intro i hk
      exact absurd hk (by simp)
    · rw [if_neg hcl, if_neg Bool.false_ne_true] at hres
      by_cases hopen : connOpen = true
      · rw [if_pos hopen] at hres
        cases hres
        refine ⟨rfl, ?_, ?_⟩
        · intro i hk
          exact absurd hk (by simp)
        · intro hk
          exact absurd hk (by simp)
      · rw [if_neg hopen] at hres
        refine ensureLoop_spec env (t0 + ratMax 1 maxWait) fuel 0 t0 1 []
          ?_ (by simp [backoffDelays]) res hres
        norm_num

/-- Witness for C7: a healthy open connection returns immediately; a closed
manager raises `db_closing`; two failed attempts produce waits of 1s then 2s;
with a 3s budget the third failure happens at the deadline and re-raises. -/
theorem db_ensure_connected_behavior_witness :
    dbEnvHealthy.ensureConnected false true 0 60 10
        = some ⟨EnsureOut.success, [], 0, 0⟩ ∧
    dbEnvClosed.ensureConnected false false 0 60 10
        = some ⟨EnsureOut.closingErr, [], 0, 0⟩ ∧
    dbEnvFail2.ensureConnected false false 0 60 10
        = some ⟨EnsureOut.success, [1, 2], 3, 3⟩ ∧
    [(1:ℚ), 2] = backoffDelays 2 ∧
    dbEnvAllFail.ensureConnected false false 0 3 10
        = some ⟨EnsureOut.connErr 2, [1, 2], 3, 3⟩ ∧
    dbEnvAllFail.attemptFails 2 = true ∧ (0:ℚ) + ratMax 1 3 ≤ 3 := by
  have h1 := (db_ensure_connected_behavior dbEnvHealthy true 0 60 10).1 (by decide) rfl
  have h2 := (db_ensure_connected_behavior dbEnvClosed false 0 60 10).2.1 (by decide)
  have h3 : dbEnvFail2.ensureConnected false false 0 60 10
      = some ⟨EnsureOut.success, [1, 2], 3, 3⟩ := by
    norm_num [DbEnv.ensureConnected, ensureLoop, dbEnvFail2, DbEnv.closing, waitEnd,
      ratMin, ratMax]
  have h4 := ((db_ensure_connected_behavior dbEnvFail2 false 0 60 10).2.2 _ h3).1
  have h5 : dbEnvAllFail.ensureConnected false false 0 3 10
      = some ⟨EnsureOut.connErr 2, [1, 2], 3, 3⟩ := by
    norm_num [DbEnv.ensureConnected, ensureLoop, dbEnvAllFail, DbEnv.closing, waitEnd,
      ratMin, ratMax]
  have h6 := ((db_ensure_connected_behavior dbEnvAllFail false 0 3 10).2.2 _ h5).2.1 2 rfl
  exact ⟨h1, h2, h3, by simpa using h4, h5, h6.1, h6.2⟩

/-- C1 evidence: `run` checks the closing flag, acquires the non-reentrant
manager lock, and then calls `ensure_connected`, which tries to acquire the
same lock again — so whenever the manager is not closing, `run` deadlocks
before ever invoking the operation, for every operation and retry budget. -/
theorem db_run_self_deadlock {α : Type} (env : DbEnv) (op : Nat → OpRes α)
    (retries : Nat) (connOpen : Bool) (t0 maxWait : ℚ) (fuel : Nat)
    (h : env.closing t0 = false) :
    env.run op retries connOpen t0 maxWait fuel = RunOut.deadlock := by
  simp [DbEnv.run, DbEnv.ensureConnected, h]

/-- Witness for C1's failing scenario: an operation that fails once with a
connection-level error and then succeeds, retries = 1, healthy manager —
`run` deadlocks instead of returning the success result. -/
theorem db_run_self_deadlock_witness :
    dbEnvHealthy.run opFailOnce 1 true 0 60 10 = RunOut.deadlock :=
  db_run_self_deadlock dbEnvHealthy opFailOnce 1 true 0 60 10 (by decide)

theorem clampVol_bounds (v : Int) : 0 ≤ clampVol v ∧ clampVol v ≤ 100 := by
  unfold clampVol intMax intMin
  split_ifs <;> omega

theorem clampVol_eq_self (v : Int) (h0 : 0 ≤ v) (h1 : v ≤ 100) : clampVol v = v := by
  unfold clampVol intMax intMin
  split_ifs <;> omega

theorem resolveVol_bounds (cfg : SonosCfg) (ip key : String) :
    0 ≤ resolveVol cfg ip key ∧ resolveVol cfg ip key ≤ 100 :=
  clampVol_bounds _

theorem setVol_mem : ∀ (m : List (String × Int)) (ip : String) (v : Int),
    ∀ p ∈ setVol m ip v, p ∈ m ∨ p.2 = v
  | [], ip, v => by
      intro p hp
      simp only [setVol, List.mem_singleton] at hp
      right
      rw [hp]
  | (k, v0) :: rest, ip, v => by
      intro p hp
      simp only [setVol] at hp
      by_cases h : k = ip
      · rw [if_pos h] at hp
        rcases List.mem_cons.mp hp with h1 | h1
        · right; rw [h1]
        · left; exact List.mem_cons_of_mem _ h1
      · rw [if_neg h] at hp
        rcases List.mem_cons.mp hp with h1 | h1
        · left; rw [h1]; exact List.mem_cons_self _ _
        · rcases setVol_mem rest ip v p h1 with h2 | h2
          · left; exact List.mem_cons_of_mem _ h2
          · right; exact h2

theorem lookupVol_setVol_self : ∀ (m : List (String × Int)) (ip : String) (v : Int),
    lookupVol (setVol m ip v) ip = some v
  | [], ip, v => by simp [setVol, lookupVol]
  | (k, v0) :: rest, ip, v => by
      by_cases h : k = ip
      · simp [setVol, lookupVol, h]
      · simp only [setVol, if_neg h, lookupVol, if_neg h]
        exact lookupVol_setVol_self rest ip v

theorem lookupVol_setVol_other : ∀ (m : List (String × Int)) (ip ip2 : String) (v : Int),
    ip2 ≠ ip → lookupVol (setVol m ip v) ip2 = lookupVol m ip2
  | [], ip, ip2, v => by
      intro hne
      simp only [setVol, lookupVol]
      rw [if_neg fun h => hne (Eq.symm h)]
  | (k, v0) :: rest, ip, ip2, v => by
      intro hne
      by_cases h : k = ip
      · subst h
        simp only [setVol, if_pos rfl, lookupVol]
        rw [if_neg (fun h2 => hne (Eq.symm h2)), if_neg (fun h2 => hne (Eq.symm h2))]
      · simp only [setVol, if_neg h, lookupVol]
        by_cases h2 : k = ip2
        · rw [if_pos h2, if_pos h2]
        · rw [if_neg h2, if_neg h2]
          exact lookupVol_setVol_other rest ip ip2 v hne

theorem lookupVol_mem : ∀ (m : List (String × Int)) (k : String) (v : Int),
    lookupVol m k = some v → (k, v) ∈ m
  | [], k, v => by simp [lookupVol]
  | (k0, v0) :: rest, k, v => by
      intro h
      simp only [lookupVol] at h
      by_cases h2 : k0 = k
      · rw [if_pos h2] at h
        subst h2
        cases h
        exact List.mem_cons_self _ _
      · rw [if_neg h2] at h
        exact List.mem_cons_of_mem _ (lookupVol_mem rest k v h)

theorem lookupVol_isSome_ne_nil (m : List (String × Int)) (k : String) (v : Int)
    (h : lookupVol m k = some v) : m ≠ [] := by
  intro hnil
  rw [hnil] at h
  simp [lookupVol] at h

theorem addMemberVol_map_key : ∀ (out : List ResolvedTarget) (key ip : String) (v : Int),
    (addMemberVol out key ip v).map ResolvedTarget.key = out.map ResolvedTarget.key
  | [], _, _, _ => rfl
  | t :: rest, key, ip, v => by
      by_cases h : t.key = key
      · simp [addMemberVol, if_pos h]
      · simp only [addMemberVol, if_neg h, List.map_cons]
        rw [addMemberVol_map_key rest key ip v]

theorem addMemberVol_mem_of_ne : ∀ (out : List ResolvedTarget) (key ip : String) (v : Int)
    (t : ResolvedTarget), t ∈ out → t.key ≠ key → t ∈ addMemberVol out key ip v
  | [], _, _, _, _ => by intro h _; exact absurd h (List.not_mem_nil _)
  | t0 :: rest, key, ip, v, t => by
      intro ht hne
      by_cases h : t0.key = key
      · simp only [addMemberVol, if_pos h]
        rcases List.mem_cons.mp ht with h1 | h1
        · exact absurd (h1 ▸ h) hne
        · exact List.mem_cons_of_mem _ h1
      · simp only [addMemberVol, if_neg h]
        rcases List.mem_cons.mp ht with h1 | h1
        · rw [h1]; exact List.mem_cons_self _ _
        · exact List.mem_cons_of_mem _ (addMemberVol_mem_of_ne rest key ip v t h1 hne)

theorem addMemberVol_update : ∀ (out : List ResolvedTarget) (key ip : String) (v : Int)
    (t : ResolvedTarget), (out.map ResolvedTarget.key).Nodup → t ∈ out → t.key = key →
    { t with memberVolumes := setVol t.memberVolumes ip v } ∈ addMemberVol out key ip v
  | [], _, _, _, _ => by intro _ h _; exact absurd h (List.not_mem_nil _)
  | t0 :: rest, key, ip, v, t => by
      intro hnd ht hk
      simp only [List.map_cons, List.nodup_cons] at hnd
      by_cases h : t0.key = key
      · have hteq : t = t0 := by
          rcases List.mem_cons.mp ht with h1 | h1
          · exact h1
          · exfalso
            apply hnd.1
            rw [h, ← hk]
            exact List.mem_map_of_mem ResolvedTarget.key h1
        subst hteq
        simp only [addMemberVol, if_pos h]
        exact List.mem_cons_self _ _
      · have h1 : t ∈ rest := by
          rcases List.mem_cons.mp ht with h2 | h2
          · exact absurd (h2 ▸ hk) h
          · exact h2
        simp only [addMemberVol, if_neg h]
        exact List.mem_cons_of_mem _ (addMemberVol_update rest key ip v t hnd.2 h1 hk)

theorem addMemberVol_mem : ∀ (out : List ResolvedTarget) (key ip : String) (v : Int),
    ∀ t2 ∈ addMemberVol out key ip v,
      t2 ∈ out ∨ ∃ t ∈ out, t.key = key ∧
        t2 = { t with memberVolumes := setVol t.memberVolumes ip v }
  | [], _, _, _ => by intro t2 h; exact absurd h (List.not_mem_nil _)
  | t0 :: rest, key, ip, v => by
      intro t2 h2
      by_cases h : t0.key = key
      · simp only [addMemberVol, if_pos h] at h2
        rcases List.mem_cons.mp h2 with h1 | h1
        · right
          exact ⟨t0, List.mem_cons_self _ _, h, h1⟩
        · left; exact List.mem_cons_of_mem _ h1
      · simp only [addMemberVol, if_neg h] at h2
        rcases List.mem_cons.mp h2 with h1 | h1
        · left; rw [h1]; exact List.mem_cons_self _ _
        · rcases addMemberVol_mem rest key ip v t2 h1 with h3 | ⟨t, ht, hk, he⟩
          · left; exact List.mem_cons_of_mem _ h3
          · right; exact ⟨t, List.mem_cons_of_mem _ ht, hk, he⟩

/-- Invariant of the `_resolve_targets` loop: coordinator keys in the output
stay pairwise distinct, and every stored volume stays clamped. -/
theorem resolveLoop_invariant (cfg : SonosCfg) (env : SonosEnv) :
    ∀ (ips seen : List String) (out : List ResolvedTarget),
      (∀ t ∈ out, seen.contains t.key = true) →
      (out.map ResolvedTarget.key).Nodup →
      (∀ t ∈ out, volOk t) →
      ((resolveLoop cfg env ips seen out).map ResolvedTarget.key).Nodup ∧
      (∀ t ∈ resolveLoop cfg env ips seen out, volOk t)
  | [], seen, out => by
      intro _ h2 h3
      exact ⟨h2, h3⟩
  | ip :: rest, seen, out => by
      intro h1 h2 h3
      simp only [resolveLoop]
      by_cases hc : seen.contains (addrKey env ip) = true
      · rw [if_pos hc]
        refine resolveLoop_invariant cfg env rest seen _ ?_ ?_ ?_
        · intro t2 ht2
          rcases addMemberVol_mem out (addrKey env ip) ip
            (resolveVol cfg ip (addrKey env ip)) t2 ht2 with h | ⟨t, ht, _, he⟩
          · exact h1 t2 h
          · rw [he]
            exact h1 t ht
        · rw [addMemberVol_map_key]
          exact h2
        · intro t2 ht2
          rcases addMemberVol_mem out (addrKey env ip) ip
            (resolveVol cfg ip (addrKey env ip)) t2 ht2 with h | ⟨t, ht, _, he⟩
          · exact h3 t2 h
          · rw [he]
            refine ⟨(h3 t ht).1, ?_⟩
            intro p hp
            rcases setVol_mem t.memberVolumes ip (resolveVol cfg ip (addrKey env ip)) p hp
              with hm | hv
            · exact (h3 t ht).2 p hm
            · rw [hv]
              exact resolveVol_bounds cfg ip (addrKey env ip)
      · rw [if_neg hc]
        refine resolveLoop_invariant cfg env rest (addrKey env ip :: seen) _ ?_ ?_ ?_
        · intro t ht
          rcases List.mem_append.mp ht with h | h
          · simp only [List.contains_cons]
            rw [h1 t h]
            simp
          · simp only [List.mem_singleton] at h
            rw [h]
            simp [List.contains_cons]
        · rw [List.map_append]
          refine List.Nodup.append h2 (by simp) ?_
          intro x hx hx2
          simp only [List.map_cons, List.map_nil, List.mem_singleton] at hx2
          rcases List.mem_map.mp hx with ⟨t, ht, he⟩
          apply hc
          have hcontains := h1 t ht
          rw [he, hx2] at hcontains
          exact hcontains
        · intro t ht
          rcases List.mem_append.mp ht with h | h
          · exact h3 t h
          · simp only [List.mem_singleton] at h
            rw [h]
            refine ⟨resolveVol_bounds cfg ip (addrKey env ip), ?_⟩
            intro p hp
            simp only [List.mem_singleton] at hp
            rw [hp]
            exact resolveVol_bounds cfg ip (addrKey env ip)

theorem resolveTargets_keys_nodup (cfg : SonosCfg) (env : SonosEnv) :
    ((resolveTargets cfg env).map ResolvedTarget.key).Nodup :=
  (resolveLoop_invariant cfg env cfg.speakerIps [] []
    (by intro t ht; exact absurd ht (List.not_mem_nil _)) (by simp)
    (by intro t ht; exact absurd ht (List.not_mem_nil _))).1

theorem resolveTargets_volOk (cfg : SonosCfg) (env : SonosEnv) :
    ∀ t ∈ resolveTargets cfg env, volOk t :=
  (resolveLoop_invariant cfg env cfg.speakerIps [] []
    (by intro t ht; exact absurd ht (List.not_mem_nil _)) (by simp)
    (by intro t ht; exact absurd ht (List.not_mem_nil _))).2

theorem targetHasMember_append (cfg : SonosCfg) (env : SonosEnv) (ip : String)
    (out : List ResolvedTarget) (l : List ResolvedTarget)
    (hp : targetHasMember cfg env ip out) : targetHasMember cfg env ip (out ++ l) := by
  rcases hp with ⟨t, ht, hk, hl⟩
  exact ⟨t, List.mem_append_left _ ht, hk, hl⟩

theorem targetHasMember_add (cfg : SonosCfg) (env : SonosEnv) (ip ip2 : String)
    (out : List ResolvedTarget) (hnd : (out.map ResolvedTarget.key).Nodup)
    (hp : targetHasMember cfg env ip out) :
    targetHasMember cfg env ip
      (addMemberVol out (addrKey env ip2) ip2 (resolveVol cfg ip2 (addrKey env ip2))) := by
  rcases hp with ⟨t, ht, hk, hl⟩
  by_cases hkey : t.key = addrKey env ip2
  · refine ⟨_, addMemberVol_update out _ ip2 _ t hnd ht hkey, hk, ?_⟩
    by_cases hip : ip2 = ip
    · subst hip
      rw [lookupVol_setVol_self]
    · rw [lookupVol_setVol_other t.memberVolumes ip2 ip _ (fun h => hip (Eq.symm h))]
      exact hl
  · exact ⟨t, addMemberVol_mem_of_ne out _ ip2 _ t ht hkey, hk, hl⟩

/-- Every configured address ends up recorded, with its own resolved volume,
in the member map of the (unique) target carrying its coordinator key. -/
theorem resolveLoop_covers (cfg : SonosCfg) (env : SonosEnv) :
    ∀ (ips seen : List String) (out : List ResolvedTarget),
      (∀ t ∈ out, seen.contains t.key = true) →
      (out.map ResolvedTarget.key).Nodup →
      (∀ k, seen.contains k = true → ∃ t ∈ out, t.key = k) →
      (∀ ip0, targetHasMember cfg env ip0 out →
        targetHasMember cfg env ip0 (resolveLoop cfg env ips seen out)) ∧
      (∀ ip ∈ ips, targetHasMember cfg env ip (resolveLoop cfg env ips seen out))
  | [], seen, out => by
      intro _ _ _
      exact ⟨fun ip0 hp => hp, by intro ip h; exact absurd h (List.not_mem_nil _)⟩
  | ip :: rest, seen, out => by
      intro h1 h2 h3
      simp only [resolveLoop]
      by_cases hc : seen.contains (addrKey env ip) = true
      · rw [if_pos hc]
        have h1' : ∀ t2 ∈ addMemberVol out (addrKey env ip) ip
            (resolveVol cfg ip (addrKey env ip)), seen.contains t2.key = true := by
          intro t2 ht2
          rcases addMemberVol_mem out (addrKey env ip) ip
            (resolveVol cfg ip (addrKey env ip)) t2 ht2 with h | ⟨t, ht, _, he⟩
          · exact h1 t2 h
          · rw [he]; exact h1 t ht
        have h2' : ((addMemberVol out (addrKey env ip) ip
            (resolveVol cfg ip (addrKey env ip))).map ResolvedTarget.key).Nodup := by
          rw [addMemberVol_map_key]; exact h2
        have h3' : ∀ k, seen.contains k = true →
            ∃ t2 ∈ addMemberVol out (addrKey env ip) ip
              (resolveVol cfg ip (addrKey env ip)), t2.key = k := by
          intro k hkm
          rcases h3 k hkm with ⟨t, ht, hk⟩
          by_cases hkey : t.key = addrKey env ip
          · exact ⟨_, addMemberVol_update out _ ip _ t h2 ht hkey, hk⟩
          · exact ⟨t, addMemberVol_mem_of_ne out _ ip _ t ht hkey, hk⟩
        have IH := resolveLoop_covers cfg env rest seen _ h1' h2' h3'
        constructor
        · intro ip0 hp
          exact IH.1 ip0 (targetHasMember_add cfg env ip0 ip out h2 hp)
        · intro ip2 hmem
          rcases List.mem_cons.mp hmem with he | hr
          · subst he
            rcases h3 _ hc with ⟨t, ht, hk⟩
            refine IH.1 ip2 ⟨_, addMemberVol_update out _ ip2 _ t h2 ht hk, hk, ?_⟩
            rw [lookupVol_setVol_self]
          · exact IH.2 ip2 hr
      · rw [if_neg hc]
        have h1' : ∀ t ∈ out ++ [(⟨coordOf env ip, resolveVol cfg ip (addrKey env ip),
            addrKey env ip, [(ip, resolveVol cfg ip (addrKey env ip))]⟩ : ResolvedTarget)],
            (addrKey env ip :: seen).contains t.key = true := by
          intro t ht
          rcases List.mem_append.mp ht with h | h
          · simp only [List.contains_cons]
            rw [h1 t h]
            simp
          · simp only [List.mem_singleton] at h
            rw [h]
            simp [List.contains_cons]
        have h2' : ((out ++ [(⟨coordOf env ip, resolveVol cfg ip (addrKey env ip),
            addrKey env ip, [(ip, resolveVol cfg ip (addrKey env ip))]⟩ :
              ResolvedTarget)]).map ResolvedTarget.key).Nodup := by
          rw [List.map_append]
          refine List.Nodup.append h2 (by simp) ?_
          intro x hx hx2
          simp only [List.map_cons, List.map_nil, List.mem_singleton] at hx2
          rcases List.mem_map.mp hx with ⟨t, ht, he⟩
          apply hc
          have hcontains := h1 t ht
          rw [he, hx2] at hcontains
          exact hcontains
        have h3' : ∀ k, (addrKey env ip :: seen).contains k = true →
            ∃ t ∈ out ++ [(⟨coordOf env ip, resolveVol cfg ip (addrKey env ip),
              addrKey env ip, [(ip, resolveVol cfg ip (addrKey env ip))]⟩ :
                ResolvedTarget)], t.key = k := by
          intro k hkm
          simp only [List.contains_cons, Bool.or_eq_true, beq_iff_eq] at hkm
          rcases hkm with he | hs
          · subst he
            exact ⟨_, List.mem_append_right _ (List.mem_singleton.mpr rfl), rfl⟩
          · rcases h3 k hs with ⟨t, ht, hk⟩
            exact ⟨t, List.mem_append_left _ ht, hk⟩
        have IH := resolveLoop_covers cfg env rest (addrKey env ip :: seen) _ h1' h2' h3'
        constructor
        · intro ip0 hp
          exact IH.1 ip0 (targetHasMember_append cfg env ip0 out _ hp)
        · intro ip2 hmem
          rcases List.mem_cons.mp hmem with he | hr
          · subst he
            refine IH.1 ip2 ⟨_, List.mem_append_right _ (List.mem_singleton.mpr rfl),
              rfl, ?_⟩
            simp [lookupVol]
          · exact IH.2 ip2 hr

theorem resolveTargets_covers (cfg : SonosCfg) (env : SonosEnv) :
    ∀ ip ∈ cfg.speakerIps, targetHasMember cfg env ip (resolveTargets cfg env) :=
  fun ip h =>
    (resolveLoop_covers cfg env cfg.speakerIps [] []
      (by intro t ht; exact absurd ht (List.not_mem_nil _)) (by simp)
      (by intro k hk; simp [List.contains] at hk)).2 ip h

theorem playCount_append (a b : List SCmd) :
    playCount (a ++ b) = playCount a + playCount b := by
  simp [playCount, List.filter_append]

theorem playCount_finallyCmds (f : DevFaults) (dev : String) :
    playCount (finallyCmds f dev) = 0 := by
  unfold finallyCmds
  split_ifs <;> rfl

theorem playCount_mapSetVol (l : List (String × Int)) :
    playCount (l.map fun p => SCmd.setVolumeCmd p.1 (clampVol p.2)) = 0 := by
  induction l with
  | nil => rfl
  | cons p rest ih => simpa [playCount, List.filter_cons] using ih

theorem playCount_volumeCmds (dev : String) (vol : Option Int) (dv : Int)
    (mv : Option (List (String × Int))) : playCount (volumeCmds dev vol dv mv) = 0 := by
  unfold volumeCmds
  split_ifs
  · exact playCount_mapSetVol _
  · rfl

theorem playCount_playBlocking (f : DevFaults) (dev url : String) (vol : Option Int)
    (dv : Int) (mv : Option (List (String × Int))) :
    playCount (playBlocking f dev url vol dv mv).1
      = if f.snapshotCtorFails || f.snapshotFails then 0 else 1 := by
  unfold playBlocking bodyCmds
  by_cases h1 : f.snapshotCtorFails = true
  · simp [h1, playCount]
  · have h1f : f.snapshotCtorFails = false := by
      revert h1; cases f.snapshotCtorFails <;> simp
    by_cases h2 : f.snapshotFails = true
    · simp only [h1f, h2, Bool.false_or, if_true, if_false, Bool.false_eq_true]
      rw [playCount_append, playCount_finallyCmds]
      rfl
    · have h2f : f.snapshotFails = false := by
        revert h2; cases f.snapshotFails <;> simp
      simp only [h1f, h2f, Bool.false_or, if_false, Bool.false_eq_true]
      rw [playCount_append, playCount_finallyCmds]
      have : SCmd.snapshotCmd dev :: volumeCmds dev vol dv mv ++ [SCmd.playUriCmd dev url]
          = [SCmd.snapshotCmd dev] ++ volumeCmds dev vol dv mv ++ [SCmd.playUriCmd dev url] := by
        simp
      rw [this, playCount_append, playCount_append, playCount_volumeCmds]
      rfl

theorem sum_map_ones {α : Type} (l : List α) (g : α → Nat) (h : ∀ x ∈ l, g x = 1) :
    (l.map g).sum = l.length := by
  induction l with
  | nil => rfl
  | cons x rest ih =>
      simp only [List.map_cons, List.sum_cons, List.length_cons]
      rw [h x (List.mem_cons_self _ _), ih (fun y hy => h y (List.mem_cons_of_mem _ hy))]
      omega

/-- C4: `play_url` issues at most one play command per target (and targets
carry pairwise-distinct coordinator keys); with no device faults the number
of physical play commands equals the number of distinct coordinators; and
each configured address's resolved volume override is recorded in, and
applied by a volume command to, its own member device inside its
coordinator's (possibly merged) job. -/
theorem sonos_play_dedup_and_member_volumes (cfg : SonosCfg) (env : SonosEnv)
    (url : String) :
    (∀ (faults : String → DevFaults) (vol : Option Int),
      ∀ r ∈ playUrlRun cfg env faults url vol, playCount r.1 ≤ 1) ∧
    ((resolveTargets cfg env).map ResolvedTarget.key).Nodup ∧
    totalPlays (playUrlRun cfg env faultsNone url none)
      = (resolveTargets cfg env).length ∧
    (∀ ip ∈ cfg.speakerIps, ∃ t ∈ resolveTargets cfg env,
      t.key = addrKey env ip ∧
      lookupVol t.memberVolumes ip = some (resolveVol cfg ip (addrKey env ip)) ∧
      SCmd.setVolumeCmd ip (resolveVol cfg ip (addrKey env ip))
        ∈ (playBlocking (faultsNone t.key) t.device url (some t.volume)
            cfg.defaultVolume (some t.memberVolumes)).1 ∧
      playBlocking (faultsNone t.key) t.device url (some t.volume)
          cfg.defaultVolume (some t.memberVolumes)
        ∈ playUrlRun cfg env faultsNone url none) := by
  refine ⟨?_, resolveTargets_keys_nodup cfg env, ?_, ?_⟩
  · intro faults vol r hr
    rcases List.mem_map.mp hr with ⟨t, _, he⟩
    rw [← he, playCount_playBlocking]
    split_ifs <;> omega
  · unfold totalPlays playUrlRun
    rw [List.map_map]
    refine sum_map_ones _ _ ?_
    intro t _
    simp only [Function.comp]
    rw [playCount_playBlocking]
    rfl
  · intro ip hip
    rcases resolveTargets_covers cfg env ip hip with ⟨t, ht, hk, hl⟩
    refine ⟨t, ht, hk, hl, ?_, ?_⟩
    · have hvmem : (ip, resolveVol cfg ip (addrKey env ip)) ∈ t.memberVolumes :=
        lookupVol_mem _ _ _ hl
      have hne : t.memberVolumes ≠ [] := lookupVol_isSome_ne_nil _ _ _ hl
      have htruthy : truthyMember (some t.memberVolumes) = true := by
        cases hmv : t.memberVolumes with
        | nil => exact absurd hmv hne
        | cons a l => rfl
      show SCmd.setVolumeCmd ip (resolveVol cfg ip (addrKey env ip))
          ∈ (playBlocking noFaults t.device url (some t.volume)
              cfg.defaultVolume (some t.memberVolumes)).1
      unfold playBlocking bodyCmds
      simp only [noFaults, if_false, Bool.false_eq_true]
      refine List.mem_append_left _ ?_
      refine List.mem_cons_of_mem _ (List.mem_append_left _ ?_)
      unfold volumeCmds
      rw [if_pos htruthy]
      simp only [Option.getD]
      have hmem := List.mem_map_of_mem
        (fun p : String × Int => SCmd.setVolumeCmd p.1 (clampVol p.2)) hvmem
      have hclamp : clampVol (resolveVol cfg ip (addrKey env ip))
          = resolveVol cfg ip (addrKey env ip) :=
        clampVol_eq_self _ (resolveVol_bounds cfg ip (addrKey env ip)).1
          (resolveVol_bounds cfg ip (addrKey env ip)).2
      simpa only [hclamp] using hmem
    · exact List.mem_map_of_mem _ ht

/-- Witness for C4: three addresses, two grouped and one standalone, yield
exactly two resolved coordinators and exactly two physical play commands, and
the grouped member 10.0.0.2's override (clamped to 100) is recorded on the
merged coordinator target. -/
theorem sonos_play_dedup_and_member_volumes_witness :
    totalPlays (playUrlRun sonosCfg3 sonosEnv3 faultsNone "http://h/a.mp3" none) = 2 ∧
    (resolveTargets sonosCfg3 sonosEnv3).length = 2 ∧
    (∃ t ∈ resolveTargets sonosCfg3 sonosEnv3, t.key = addrKey sonosEnv3 "10.0.0.2" ∧
      lookupVol t.memberVolumes "10.0.0.2"
        = some (resolveVol sonosCfg3 "10.0.0.2" (addrKey sonosEnv3 "10.0.0.2"))) := by
  have h := sonos_play_dedup_and_member_volumes sonosCfg3 sonosEnv3 "http://h/a.mp3"
  have hlen : (resolveTargets sonosCfg3 sonosEnv3).length = 2 := by decide
  refine ⟨by rw [h.2.2.1, hlen], hlen, ?_⟩
  rcases h.2.2.2 "10.0.0.2" (by decide) with ⟨t, ht, hk, hl, _, _⟩
  exact ⟨t, ht, hk, hl⟩

theorem get_map_aux {α β : Type} (f : α → β) :
    ∀ (l : List α) (i : Nat) (h1 : i < l.length) (h2 : i < (l.map f).length),
      (l.map f).get ⟨i, h2⟩ = f (l.get ⟨i, h1⟩)
  | [], i, h1, _ => absurd h1 (by simp)
  | a :: l, 0, _, _ => rfl
  | a :: l, i + 1, h1, h2 =>
      get_map_aux f l i (by simpa using h1) (by simpa using h2)

theorem restore_mem_playBlocking (f : DevFaults) (dev u : String) (v0 : Option Int)
    (dv : Int) (mv : Option (List (String × Int))) (hctor : f.snapshotCtorFails = false) :
    SCmd.restoreCmd dev ∈ (playBlocking f dev u v0 dv mv).1 := by
  unfold playBlocking
  simp only [hctor, Bool.false_eq_true, if_false]
  refine List.mem_append_right _ ?_
  unfold finallyCmds
  split_ifs <;> simp

theorem stop_mem_playBlocking (f : DevFaults) (dev u : String) (v0 : Option Int)
    (dv : Int) (mv : Option (List (String × Int))) (hctor : f.snapshotCtorFails = false)
    (hrf : f.restoreFails = true) :
    SCmd.stopCmd dev ∈ (playBlocking f dev u v0 dv mv).1 := by
  unfold playBlocking
  simp only [hctor, Bool.false_eq_true, if_false]
  refine List.mem_append_right _ ?_
  unfold finallyCmds
  rw [if_pos hrf]
  simp

/-- C8: the fan-out runs every target's routine — slot i of the fan-out is
exactly target i's standalone routine, and depends only on that target's own
fault behavior, so an exception in one target's routine does not change any
sibling's routine; every routine whose `Snapshot(spk)` construction succeeded
attempts restore, and a failed restore triggers an explicit stop fallback on
that device. -/
theorem sonos_fault_isolation (cfg : SonosCfg) (env : SonosEnv) (url : String)
    (vol : Option Int) (fA fB : String → DevFaults) :
    (∀ (i : Nat) (h1 : i < (resolveTargets cfg env).length)
        (h2 : i < (playUrlRun cfg env fA url vol).length),
      (playUrlRun cfg env fA url vol).get ⟨i, h2⟩
        = playBlocking (fA ((resolveTargets cfg env).get ⟨i, h1⟩).key)
            ((resolveTargets cfg env).get ⟨i, h1⟩).device url
            (callVolume vol ((resolveTargets cfg env).get ⟨i, h1⟩))
            cfg.defaultVolume
            (callMemberVols vol ((resolveTargets cfg env).get ⟨i, h1⟩))) ∧
    (∀ (i : Nat) (h1 : i < (resolveTargets cfg env).length)
        (h2 : i < (playUrlRun cfg env fA url vol).length)
        (h3 : i < (playUrlRun cfg env fB url vol).length),
      fA ((resolveTargets cfg env).get ⟨i, h1⟩).key
          = fB ((resolveTargets cfg env).get ⟨i, h1⟩).key →
      (playUrlRun cfg env fA url vol).get ⟨i, h2⟩
        = (playUrlRun cfg env fB url vol).get ⟨i, h3⟩) ∧
    (∀ (f : DevFaults) (dev u : String) (v0 : Option Int) (dv : Int)
        (mv : Option (List (String × Int))), f.snapshotCtorFails = false →
      SCmd.restoreCmd dev ∈ (playBlocking f dev u v0 dv mv).1) ∧
    (∀ (f : DevFaults) (dev u : String) (v0 : Option Int) (dv : Int)
        (mv : Option (List (String × Int))), f.snapshotCtorFails = false →
      f.restoreFails = true → SCmd.stopCmd dev ∈ (playBlocking f dev u v0 dv mv).1) := by
  have hslot : ∀ (g : String → DevFaults) (i : Nat)
      (h1 : i < (resolveTargets cfg env).length)
      (h2 : i < (playUrlRun cfg env g url vol).length),
      (playUrlRun cfg env g url vol).get ⟨i, h2⟩
        = playBlocking (g ((resolveTargets cfg env).get ⟨i, h1⟩).key)
            ((resolveTargets cfg env).get ⟨i, h1⟩).device url
            (callVolume vol ((resolveTargets cfg env).get ⟨i, h1⟩))
            cfg.defaultVolume
            (callMemberVols vol ((resolveTargets cfg env).get ⟨i, h1⟩)) := by
    intro g i h1 h2
    exact get_map_aux _ (resolveTargets cfg env) i h1 h2
  refine ⟨hslot fA, ?_, restore_mem_playBlocking, stop_mem_playBlocking⟩
  intro i h1 h2 h3 heq
  rw [hslot fA i h1 h2, hslot fB i h1 h3, heq]

/-- Witness for C8: the grouped coordinator's restore fails; the standalone
sibling's routine is unchanged, and the failing target receives an explicit
stop command. -/
theorem sonos_fault_isolation_witness :
    (playUrlRun sonosCfg3 sonosEnv3 faultsRestoreFail "http://h/a.mp3" none).get
        ⟨1, by decide⟩
      = (playUrlRun sonosCfg3 sonosEnv3 faultsNone "http://h/a.mp3" none).get
        ⟨1, by decide⟩ ∧
    SCmd.stopCmd "10.0.0.9" ∈ (playBlocking (faultsRestoreFail "10.0.0.9") "10.0.0.9"
      "http://h/a.mp3" (some 30) 25 (some [("10.0.0.1", 30), ("10.0.0.2", 100)])).1 := by
  constructor
  · exact (sonos_fault_isolation sonosCfg3 sonosEnv3 "http://h/a.mp3" none
      faultsRestoreFail faultsNone).2.1 1 (by decide) (by decide) (by decide) (by decide)
  · exact (sonos_fault_isolation sonosCfg3 sonosEnv3 "http://h/a.mp3" none
      faultsRestoreFail faultsNone).2.2.2 (faultsRestoreFail "10.0.0.9") "10.0.0.9"
      "http://h/a.mp3" (some 30) 25 (some [("10.0.0.1", 30), ("10.0.0.2", 100)])
      (by decide) (by decide)

theorem cleanupTick_keep (d e : List (String × ℚ)) (ttl t : ℚ)
    (hnone : ∀ p ∈ e, ¬(p.2 ≤ t)) : cleanupTick ⟨d, e, ttl⟩ t = ⟨d, e, ttl⟩ := by
  have hfilter : e.filter (fun p => decide (p.2 ≤ t)) = [] := by
    rw [List.filter_eq_nil_iff]
    intro p hp
    simpa using hnone p hp
  have hkeep : e.filter (fun p => !decide (p.2 ≤ t)) = e := by
    rw [List.filter_eq_self]
    intro p hp
    simpa using hnone p hp
  simp [cleanupTick, hfilter, hkeep]

theorem cleanupTick_single_expire (name : String) (tc E ttl t : ℚ) (h : E ≤ t) :
    cleanupTick ⟨[(name, tc)], [(name, E)], ttl⟩ t = ⟨[], [], ttl⟩ := by
  simp [cleanupTick, h]

theorem cleanupTick_drained (ttl t : ℚ) : cleanupTick ⟨[], [], ttl⟩ t = ⟨[], [], ttl⟩ := rfl

theorem sweepAll_drained (ttl : ℚ) (ts : List ℚ) :
    sweepAll ⟨[], [], ttl⟩ ts = ⟨[], [], ttl⟩ := by
  induction ts with
  | nil => rfl
  | cons t ts ih => rw [sweepAll, cleanupTick_drained]; exact ih

/-- C5 (amended): a file hosted at time tc with TTL `ttl` gets recorded
expiry `tc + max(5, ttl)`; it stays servable through every sweep that runs
strictly before that expiry, and stops being servable exactly once some
sweep runs at or after it — in particular it is served after its nominal
TTL has elapsed, until such a sweep. -/
theorem audio_ttl_eviction (ttl tc : ℚ) (name : String) (ts : List ℚ) :
    servable (sweepAll (hostFile (initHost ttl) name tc) ts) name
      = !(ts.any fun t => decide (tc + ratMax 5 ttl ≤ t)) := by
  have hs : hostFile (initHost ttl) name tc
      = ⟨[(name, tc)], [(name, tc + ratMax 5 ttl)], ttl⟩ := rfl
  rw [hs]
  induction ts with
  | nil => simp [sweepAll, servable]
  | cons t ts ih =>
      simp only [sweepAll, List.any_cons]
      by_cases h : tc + ratMax 5 ttl ≤ t
      · rw [cleanupTick_single_expire name tc _ ttl t h, sweepAll_drained]
        simp [servable, h]
      · rw [cleanupTick_keep [(name, tc)] [(name, tc + ratMax 5 ttl)] ttl t ?_]
        · rw [ih]
          simp [h]
        · intro p hp
          simp only [List.mem_singleton] at hp
          rw [hp]
          exact h

/-- C5 counterexample: with TTL = 1s, a file hosted at t = 0 is still
servable at t = 2 even after sweeps ran at t = 1 and t = 2 (its recorded
expiry is max(5, 1) = 5 seconds), refuting "not-found by t = 2s" and "never
served after its TTL". -/
theorem audio_ttl_counterexample :
    servable (sweepAll (hostFile (initHost 1) "clip" 0) [1, 2]) "clip" = true := by
  norm_num [sweepAll, cleanupTick, hostFile, initHost, servable, ratMax, List.filter]

theorem basename_no_slash_aux : ∀ (l acc : List Char), (∀ c ∈ acc, c ≠ '/') →
    ∀ c ∈ l.foldl (fun acc c => if c = '/' then [] else acc ++ [c]) acc, c ≠ '/'
  | [], acc => fun h => h
  | a :: l, acc => by
      intro h c
      simp only [List.foldl_cons]
      by_cases ha : a = '/'
      · rw [if_pos ha]
        exact basename_no_slash_aux l []
          (by intro x hx; exact absurd hx (List.not_mem_nil _)) c
      · rw [if_neg ha]
        refine basename_no_slash_aux l (acc ++ [a]) ?_ c
        intro x hx
        rcases List.mem_append.mp hx with h1 | h1
        · exact h x h1
        · simp only [List.mem_singleton] at h1
          rw [h1]
          exact ha

theorem basenameChars_no_slash (l : List Char) : ∀ c ∈ basenameChars l, c ≠ '/' :=
  basename_no_slash_aux l [] (by intro c hc; exact absurd hc (List.not_mem_nil _))

theorem underscore_no_space (l : List Char) : ∀ c ∈ underscoreSpaces l, c ≠ ' ' := by
  intro c hc
  rcases List.mem_map.mp hc with ⟨c0, _, he⟩
  by_cases h : c0 = ' '
  · rw [← he, if_pos h]
    decide
  · rw [← he, if_neg h]
    exact h

theorem underscore_no_slash (l : List Char) (hl : ∀ c ∈ l, c ≠ '/') :
    ∀ c ∈ underscoreSpaces l, c ≠ '/' := by
  intro c hc
  rcases List.mem_map.mp hc with ⟨c0, hc0, he⟩
  by_cases h : c0 = ' '
  · rw [← he, if_pos h]
    decide
  · rw [← he, if_neg h]
    exact hl c0 hc0

theorem stringMk_ne_empty (l : List Char) (h : l ≠ []) : String.mk l ≠ "" := by
  intro he
  apply h
  simpa using congrArg String.data he

/-- C9 (amended): `_safe_filename` always returns a non-empty name with no
posix path separator and no space, and empty or whitespace-only inputs yield
"audio"; but the result can still be the parent-directory name ".." (see the
counterexample), so "no parent-directory components" does not hold of the
function itself — only of the uuid-prefixed name `host_bytes` builds. -/
theorem safe_filename_amended (name : String) :
    safeFilename name ≠ "" ∧
    (∀ c ∈ (safeFilename name).data, c ≠ '/' ∧ c ≠ ' ') ∧
    (stripChars name.data = [] → safeFilename name = "audio") := by
  have hdef : safeFilename name
      = (if basenameChars (stripChars (if name = "" then "audio".data else name.data)) = []
          then "audio"
          else String.mk (underscoreSpaces
            (basenameChars (stripChars (if name = "" then "audio".data else name.data))))) :=
    rfl
  refine ⟨?_, ?_, ?_⟩
  · rw [hdef]
    by_cases h2 : basenameChars (stripChars
        (if name = "" then "audio".data else name.data)) = []
    · rw [if_pos h2]
      decide
    · rw [if_neg h2]
      apply stringMk_ne_empty
      intro hnil
      exact h2 (List.map_eq_nil_iff.mp hnil)
  · rw [hdef]
    by_cases h2 : basenameChars (stripChars
        (if name = "" then "audio".data else name.data)) = []
    · rw [if_pos h2]
      decide
    · rw [if_neg h2]
      intro c hc
      have hc2 : c ∈ underscoreSpaces (basenameChars (stripChars
          (if name = "" then "audio".data else name.data))) := hc
      exact ⟨underscore_no_slash _ (basenameChars_no_slash _) c hc2,
        underscore_no_space _ c hc2⟩
  · intro hstrip
    by_cases hname : name = ""
    · subst hname
      decide
    · rw [hdef, if_neg hname, hstrip]
      rfl

/-- C9 counterexample: the input ".." survives `_safe_filename` verbatim —
the returned name is itself the parent-directory component "..". -/
theorem safe_filename_counterexample : safeFilename ".." = ".." := by decide

/-- Witness for C9 (amended) at a whitespace-only input and at an input with
spaces and a separator. -/
theorem safe_filename_amended_witness :
    safeFilename "   " = "audio" ∧ safeFilename "a b/c d.mp3" ≠ "" :=
  ⟨(safe_filename_amended "   ").2.2 (by decide),
    (safe_filename_amended "a b/c d.mp3").1⟩

/-- C10: every `_ResolvedTarget` list produced by `_resolve_targets` has
pairwise-distinct coordinator keys, and every volume stored in a target's
`volume` field or `member_volumes` map is clamped into 0..100, for arbitrary
configured overrides and default volume. -/
theorem sonos_resolved_targets_distinct_and_clamped (cfg : SonosCfg) (env : SonosEnv) :
    ((resolveTargets cfg env).map ResolvedTarget.key).Nodup ∧
    ∀ t ∈ resolveTargets cfg env,
      (0 ≤ t.volume ∧ t.volume ≤ 100) ∧
      ∀ p ∈ t.memberVolumes, 0 ≤ p.2 ∧ p.2 ≤ 100 :=
  ⟨resolveTargets_keys_nodup cfg env, fun t ht => resolveTargets_volOk cfg env t ht⟩

end HomeAgent
